import Mathlib

/-!
Verification development for the event-dispatch semantics of the
pragmatic-drag-and-drop repository, as documented in
`packages/documentation/constellation/05-core-package/06-events/index.mdx`
and the tutorial `packages/documentation/constellation/01-tutorial/index.mdx`.

Drop-target elements and monitor registrations are identified by natural
numbers.  Listener invocations in a dispatch pass are recorded as a list of
`Call`s, in the order the dispatcher performs them.
-/

namespace Pdnd

/-- User input snapshot (`Input` in the documented types). -/
structure Input where
  altKey : Bool
  button : Int
  buttons : Int
  ctrlKey : Bool
  metaKey : Bool
  shiftKey : Bool
  clientX : Int
  clientY : Int
  pageX : Int
  pageY : Int
deriving DecidableEq, Repr

/-- `DragLocation`: a user's input at a point in time paired with the
bubble-ordered (innermost first) list of active drop targets, each identified
by its element id. -/
structure DragLocation where
  input : Input
  dropTargets : List Nat
deriving DecidableEq, Repr

/-- `DragLocationHistory`: where the drag started, where the user currently
is, and where the user was previously.  In the documented type `previous` is
`Pick<DragLocation, 'dropTargets'>`, so only the drop-target list is kept. -/
structure DragLocationHistory where
  initial : DragLocation
  current : DragLocation
  previousDropTargets : List Nat
deriving DecidableEq, Repr

/-- The five primary event types. -/
inductive EventKind where
  | onGenerateDragPreview
  | onDragStart
  | onDrag
  | onDropTargetChange
  | onDrop
deriving DecidableEq, Repr

/-- A listener being invoked: the drag source's listener, a drop target's
listener (by element id), or a monitor's listener (by registration id). -/
inductive Recipient where
  | source
  | target (id : Nat)
  | monitor (id : Nat)
deriving DecidableEq, Repr

/-- One listener invocation in a dispatch pass: a primary event firing on a
recipient, or a derived `onDragEnter` / `onDragLeave` notification executed on
a drop target alongside `onDropTargetChange`. -/
inductive Call where
  | fire (k : EventKind) (r : Recipient)
  | dragEnter (id : Nat)
  | dragLeave (id : Nat)
deriving DecidableEq, Repr

/-- Is this call a primary event firing on the drag source? -/
def Call.isSourceFire : Call → Bool
  | .fire _ .source => true
  | _ => false

/-- Is this call a primary event firing on a drop target? -/
def Call.isTargetFire : Call → Bool
  | .fire _ (.target _) => true
  | _ => false

/-- Is this call a primary event firing on a monitor? -/
def Call.isMonitorFire : Call → Bool
  | .fire _ (.monitor _) => true
  | _ => false

/-- Is this call a derived enter/leave notification? -/
def Call.isDerived : Call → Bool
  | .dragEnter _ => true
  | .dragLeave _ => true
  | _ => false

/-- Is this call an `onDrop` firing? -/
def Call.isDropFire : Call → Bool
  | .fire .onDrop _ => true
  | _ => false

/-- Dispatch phase of a call: the drag source first (0), the drop-target
traversal together with its derived events second (1), monitors last (2). -/
def Call.rank : Call → Nat
  | .fire _ .source => 0
  | .fire _ (.target _) => 1
  | .fire _ (.monitor _) => 2
  | .dragEnter _ => 1
  | .dragLeave _ => 1

/-- Modelled from the spec: the core dispatcher implementation is not part of
the documentation excerpt.  Per "Event ordering", every event flows
(1) to the drag source if relevant, (2) to the relevant drop targets innermost
upwards, (3) to monitors in the order they were created. -/
def dispatchOrdered (k : EventKind) (hasSource : Bool) (targets monitors : List Nat) :
    List Call :=
  (if hasSource then [Call.fire k .source] else [])
    ++ targets.map (fun t => Call.fire k (.target t))
    ++ monitors.map (fun m => Call.fire k (.monitor m))

/-- Modelled from the spec: the `onDropTargetChange` dispatch pass, whose
implementation is not part of the excerpt.  After the drag source, the
previous hierarchy is traversed in bubble order (targets no longer present
also receive a derived `onDragLeave`), then the newly entered targets of the
new hierarchy in bubble order (each also receiving a derived `onDragEnter`),
then monitors. -/
def dispatchChange (hasSource : Bool) (prev next monitors : List Nat) : List Call :=
  (if hasSource then [Call.fire .onDropTargetChange .source] else [])
    ++ prev.flatMap (fun t =>
        Call.fire .onDropTargetChange (.target t)
          :: if t ∈ next then [] else [Call.dragLeave t])
    ++ (next.filter (fun t => decide (t ∉ prev))).flatMap (fun t =>
        [Call.fire .onDropTargetChange (.target t), Call.dragEnter t])
    ++ monitors.map (fun m => Call.fire .onDropTargetChange (.monitor m))

/-- A primary drag-lifecycle moment together with the drop-target hierarchies
it is dispatched against. -/
inductive DragEvent where
  | generatePreview (targets : List Nat)
  | dragStart (targets : List Nat)
  | drag (targets : List Nat)
  | change (prev next : List Nat)
  | drop (targets : List Nat)
deriving DecidableEq, Repr

/-- The event type of a drag-lifecycle moment. -/
def DragEvent.kind : DragEvent → EventKind
  | .generatePreview _ => .onGenerateDragPreview
  | .dragStart _ => .onDragStart
  | .drag _ => .onDrag
  | .change _ _ => .onDropTargetChange
  | .drop _ => .onDrop

/-- The drop targets whose listeners are relevant for an event, in the order
the dispatcher traverses them: the current hierarchy in bubble order, except
for a hierarchy change, where the previous hierarchy (bubble order) comes
first and then the newly entered targets (bubble order). -/
def DragEvent.relevantTargets : DragEvent → List Nat
  | .generatePreview ts => ts
  | .dragStart ts => ts
  | .drag ts => ts
  | .change prev next => prev ++ next.filter (fun t => decide (t ∉ prev))
  | .drop ts => ts

/-- Modelled from the spec: one dispatch pass for a primary event. -/
def dispatch (hasSource : Bool) (monitors : List Nat) : DragEvent → List Call
  | .change prev next => dispatchChange hasSource prev next monitors
  | e => dispatchOrdered e.kind hasSource e.relevantTargets monitors

/-- How a drag operation can conclude.  The web platform surfaces these
differently, but the library publishes no distinction between them. -/
inductive EndReason where
  | explicitDrop
  | cancelled
  | leftWindow
deriving DecidableEq, Repr

/-- Modelled from the spec: the drop-target hierarchy the terminal `onDrop`
event is dispatched against.  A cancellation (and a drag leaving the window)
ends with an empty current hierarchy; an explicit drop keeps the final one. -/
def finalDropTargets (current : List Nat) : EndReason → List Nat
  | .explicitDrop => current
  | .cancelled => []
  | .leftWindow => []

/-- Modelled from the spec: end-of-drag handling.  If concluding changes the
current hierarchy (a cancellation while over drop targets), an
`onDropTargetChange` pass clearing the exiting targets is dispatched first;
then the terminal `onDrop` fires against the final current hierarchy. -/
def finishDrag (hasSource : Bool) (current monitors : List Nat) (r : EndReason) :
    List Call :=
  (if current = finalDropTargets current r then []
    else dispatchChange hasSource current (finalDropTargets current r) monitors)
    ++ dispatchOrdered .onDrop hasSource (finalDropTargets current r) monitors

/-- The `onDrop` event payload: the base payload alone.  No field records how
the drag concluded. -/
structure DropPayload where
  location : DragLocationHistory
  sourceElement : Nat
deriving DecidableEq, Repr

/-- Modelled from the spec: the full end-of-drag step, producing both the
dispatched calls and the `onDrop` payload.  The conclusion reason is available
to the engine but the payload carries only the final location history. -/
def finishDragRun (hasSource : Bool) (initial : DragLocation) (finalInput : Input)
    (current prevTargets monitors : List Nat) (sourceElement : Nat) (r : EndReason) :
    List Call × DropPayload :=
  (finishDrag hasSource current monitors r,
    ⟨⟨initial, ⟨finalInput, finalDropTargets current r⟩, prevTargets⟩, sourceElement⟩)

/-- Histories of the events dispatched after the first two, threading the
`previous` field: each event's `previous` drop targets are the `current` drop
targets of the event dispatched before it. -/
def historiesFrom (initial : DragLocation) :
    DragLocation → List DragLocation → List DragLocationHistory
  | _, [] => []
  | prev, u :: rest => ⟨initial, u, prev.dropTargets⟩ :: historiesFrom initial u rest

/-- Modelled from the spec: the `DragLocationHistory` payloads of a whole
drag, one per dispatched event.  Index 0 is `onGenerateDragPreview` and index
1 is `onDragStart`, both dispatched at the initial location with `previous`
equal to `current`; afterwards each update's `previous` is the prior
`current`. -/
def dispatchedHistories (initial : DragLocation) (updates : List DragLocation) :
    List DragLocationHistory :=
  ⟨initial, initial, initial.dropTargets⟩
    :: ⟨initial, initial, initial.dropTargets⟩
    :: historiesFrom initial initial updates

/-- Modelled from the spec: native `drag` events are throttled using
`requestAnimationFrame`.  Raw input states are grouped by the animation frame
in which they arrive; when a frame fires, only the most recent pending state
of that frame is dispatched. -/
def throttledDispatches (frames : List (List DragLocation)) : List DragLocation :=
  frames.flatMap (fun frame => frame.getLast?.toList)

/-- Modelled from the spec: registration appends to the ordered registry. -/
def register (reg : List Nat) (id : Nat) : List Nat := reg ++ [id]

/-- Modelled from the spec: invoking the deregistration handle returned for
`id` removes that listener from the registry. -/
def unregister (id : Nat) (reg : List Nat) : List Nat :=
  reg.filter (fun j => decide (j ≠ id))

/-- Modelled from the spec: the combined deregistration handle of several
registrations tears all of them down, in the listed order. -/
def combinedUnbind (ids : List Nat) (reg : List Nat) : List Nat :=
  ids.foldl (fun r i => unregister i r) reg

/-- Modelled from the spec: one event dispatched against a snapshot of the
monitor registry.  `actions c` is the list of monitor ids the listener invoked
by call `c` unregisters while running; the pass itself is computed from the
snapshot, and the mutations only produce the registry used for later events. -/
def runEvent (hasSource : Bool) (monitors : List Nat) (e : DragEvent)
    (actions : Call → List Nat) : List Call × List Nat :=
  let trace := dispatch hasSource monitors e
  (trace, trace.foldl (fun reg c => combinedUnbind (actions c) reg) monitors)

/-- A drop target candidate during a drag: the element it is attached to and
its `canDrop` predicate, applied to the drag source's element. -/
structure TargetSpec where
  element : Nat
  canDrop : Nat → Bool

/-- Modelled from the spec: the active drop-target hierarchy over a
bubble-ordered chain of candidate targets keeps only the targets whose
`canDrop` accepts the current drag source; returning `false` disables the
element's drop-target functionality for that drag. -/
def activeDropTargets (src : Nat) (chain : List TargetSpec) : List Nat :=
  (chain.filter (fun t => t.canDrop src)).map (fun t => t.element)

/-- Keys pressed during a keyboard-controlled drag. -/
inductive Key where
  | pageUp
  | pageDown
  | homeKey
  | endKey
  | escape
  | otherKey
deriving DecidableEq, Repr

/-- The keys whose default action modifies scroll. -/
def scrollModifierKeys : List Key := [.pageUp, .pageDown, .homeKey, .endKey]

/-- Outcome of a keydown processed by the keyboard sensor during a drag. -/
structure KeyDownOutcome where
  defaultPrevented : Bool
  dragging : Bool
deriving DecidableEq, Repr

/-- Modelled from the spec: the keyboard sensor's keydown handling while a
drag is active.  The sensor implementation is not part of the excerpt; its
behavior is fixed by the integration test "should prevent using keyboard keys
that modify scroll": scroll-modifying keys have their default action prevented
and the item stays dragging, while Escape cancels the drag. -/
def keydownWhileDragging : Key → KeyDownOutcome
  | .pageUp => ⟨true, true⟩
  | .pageDown => ⟨true, true⟩
  | .homeKey => ⟨true, true⟩
  | .endKey => ⟨true, true⟩
  | .escape => ⟨true, false⟩
  | .otherKey => ⟨false, true⟩

/-- Chessboard coordinates, `[row, column]` in the tutorial. -/
abbrev Coord := Nat × Nat

/-- The tutorial's piece types. -/
inductive PieceType where
  | king
  | pawn
deriving DecidableEq, Repr

/-- A value looked up in the untyped `data` record
(`Record<string, unknown>`) of a draggable or drop target: absent, a
coordinate, a piece type, or anything else. -/
inductive DataValue where
  | undef
  | coord (c : Coord)
  | piece (t : PieceType)
  | other
deriving DecidableEq, Repr

/-- The tutorial's `isCoord` type guard. -/
def isCoord : DataValue → Bool
  | .coord _ => true
  | _ => false

/-- The tutorial's `isPieceType` type guard. -/
def isPieceType : DataValue → Bool
  | .piece _ => true
  | _ => false

/-- The tutorial's coordinate equality. -/
def isEqualCoord (a b : Coord) : Bool := a == b

/-- A piece on the tutorial chessboard. -/
structure PieceRecord where
  type : PieceType
  location : Coord
deriving DecidableEq, Repr

/-- The `source.data` surfaced by the tutorial's `draggable` via
`getInitialData`. -/
structure SourceData where
  location : DataValue
  pieceType : DataValue
deriving DecidableEq, Repr

/-- The `data` of a drop-target square surfaced via `getData`. -/
structure TargetData where
  location : DataValue
deriving DecidableEq, Repr

/-- The tutorial chessboard monitor's `onDrop` handler (tutorial Step 3),
returning the `pieces` state after the handler runs.  `canMove` is linked but
not listed in the excerpt, so it is passed in abstractly.  The type-guard
sequence of the handler is embedded as a match on the guarded values, and the
JavaScript reference inequality `p !== piece` is modelled as structural
inequality. -/
def monitorOnDrop (canMove : Coord → Coord → PieceType → List PieceRecord → Bool)
    (pieces : List PieceRecord) (source : SourceData)
    (currentDropTargets : List TargetData) : List PieceRecord :=
  match currentDropTargets.head? with
  | none => pieces
  | some destination =>
    match destination.location, source.location, source.pieceType with
    | .coord destinationLocation, .coord sourceLocation, .piece pieceType =>
      let piece := pieces.find? (fun p => isEqualCoord p.location sourceLocation)
      let restOfPieces := pieces.filter (fun p => decide (some p ≠ piece))
      match piece with
      | some pc =>
        if canMove sourceLocation destinationLocation pieceType pieces then
          ⟨pc.type, destinationLocation⟩ :: restOfPieces
        else
          pieces
      | none => pieces
    | _, _, _ => pieces

/-! ### Generic list helpers -/

lemma filter_map_of_false {α β : Type} {p : β → Bool} {f : α → β}
    (h : ∀ a, p (f a) = false) (l : List α) : (l.map f).filter p = [] := by
  induction l with
  | nil => rfl
  | cons a l ih => simp [h, ih]

lemma filter_map_of_true {α β : Type} {p : β → Bool} {f : α → β}
    (h : ∀ a, p (f a) = true) (l : List α) : (l.map f).filter p = l.map f := by
  induction l with
  | nil => rfl
  | cons a l ih => simp [h, ih]

lemma filter_flatMap_comm {α β : Type} (l : List α) (f : α → List β) (p : β → Bool) :
    (l.flatMap f).filter p = l.flatMap fun a => (f a).filter p := by
  induction l with
  | nil => rfl
  | cons a l ih => simp [List.flatMap_cons, List.filter_append, ih]

lemma flatMap_ite_nil {α β : Type} (p : α → Prop) [DecidablePred p] (g : α → β)
    (l : List α) :
    (l.flatMap fun a => if p a then [] else [g a])
      = (l.filter fun a => decide (¬ p a)).map g := by
  induction l with
  | nil => rfl
  | cons a l ih => by_cases h : p a <;> simp [h, ih]

/-! ### `dispatchOrdered` lemmas -/

lemma do_filter_source (k : EventKind) (hasSource : Bool) (targets monitors : List Nat) :
    (dispatchOrdered k hasSource targets monitors).filter Call.isSourceFire
      = if hasSource then [Call.fire k .source] else [] := by
  unfold dispatchOrdered
  rw [List.filter_append, List.filter_append,
    filter_map_of_false (fun t => rfl), filter_map_of_false (fun m => rfl)]
  cases hasSource <;> simp [Call.isSourceFire]

lemma do_filter_target (k : EventKind) (hasSource : Bool) (targets monitors : List Nat) :
    (dispatchOrdered k hasSource targets monitors).filter Call.isTargetFire
      = targets.map (fun t => Call.fire k (.target t)) := by
  unfold dispatchOrdered
  rw [List.filter_append, List.filter_append,
    filter_map_of_true (fun t => rfl), filter_map_of_false (fun m => rfl)]
  cases hasSource <;> simp [Call.isTargetFire]

lemma do_filter_monitor (k : EventKind) (hasSource : Bool) (targets monitors : List Nat) :
    (dispatchOrdered k hasSource targets monitors).filter Call.isMonitorFire
      = monitors.map (fun m => Call.fire k (.monitor m)) := by
  unfold dispatchOrdered
  rw [List.filter_append, List.filter_append,
    filter_map_of_false (fun t => rfl), filter_map_of_true (fun m => rfl)]
  cases hasSource <;> simp [Call.isMonitorFire]

lemma do_mem_target (k : EventKind) (hasSource : Bool) (targets monitors : List Nat)
    (x : Nat) :
    Call.fire k (.target x) ∈ dispatchOrdered k hasSource targets monitors ↔
      x ∈ targets := by
  cases hasSource <;> simp [dispatchOrdered, List.mem_append]

lemma pairwise_rank_const {l : List Call} {n : Nat} (h : ∀ c ∈ l, Call.rank c = n) :
    l.Pairwise (fun a b => a.rank ≤ b.rank) := by
  induction l with
  | nil => exact List.Pairwise.nil
  | cons a l ih =>
    refine List.Pairwise.cons ?_ (ih fun c hc => h c (List.mem_cons_of_mem _ hc))
    intro b hb
    rw [h a (List.mem_cons_self _ _), h b (List.mem_cons_of_mem _ hb)]

lemma pairwise_rank_three {A B C : List Call}
    (hA : ∀ c ∈ A, Call.rank c = 0) (hB : ∀ c ∈ B, Call.rank c = 1)
    (hC : ∀ c ∈ C, Call.rank c = 2) :
    (A ++ B ++ C).Pairwise (fun a b => a.rank ≤ b.rank) := by
  refine List.pairwise_append.mpr
    ⟨List.pairwise_append.mpr ⟨pairwise_rank_const hA, pairwise_rank_const hB, ?_⟩,
     pairwise_rank_const hC, ?_⟩
  · intro a ha b hb
    rw [hA a ha, hB b hb]
    exact Nat.zero_le 1
  · intro a ha b hb
    rw [hC b hb]
    rcases List.mem_append.mp ha with h | h
    · rw [hA a h]; exact Nat.zero_le 2
    · rw [hB a h]; exact Nat.le_of_lt Nat.one_lt_two

lemma do_ranks (k : EventKind) (hasSource : Bool) (targets monitors : List Nat) :
    (dispatchOrdered k hasSource targets monitors).Pairwise
      (fun a b => a.rank ≤ b.rank) := by
  unfold dispatchOrdered
  refine pairwise_rank_three ?_ ?_ ?_
  · intro c hc
    cases hasSource <;> simp at hc
    subst hc; rfl
  · intro c hc
    simp [List.mem_map] at hc
    obtain ⟨t, _, rfl⟩ := hc; rfl
  · intro c hc
    simp [List.mem_map] at hc
    obtain ⟨m, _, rfl⟩ := hc; rfl

/-! ### `dispatchChange` lemmas -/

lemma dc_filter_source (hasSource : Bool) (prev next monitors : List Nat) :
    (dispatchChange hasSource prev next monitors).filter Call.isSourceFire
      = if hasSource then [Call.fire .onDropTargetChange .source] else [] := by
  unfold dispatchChange
  rw [List.filter_append, List.filter_append, List.filter_append,
    filter_flatMap_comm, filter_flatMap_comm, filter_map_of_false (fun m => rfl)]
  have h₁ : (prev.flatMap fun t =>
      (Call.fire .onDropTargetChange (.target t)
        :: if t ∈ next then [] else [Call.dragLeave t]).filter Call.isSourceFire) = [] := by
    rw [List.flatMap_eq_nil_iff]
    intro t _
    by_cases h : t ∈ next <;> simp [h, Call.isSourceFire]
  have h₂ : ((next.filter fun t => decide (t ∉ prev)).flatMap fun t =>
      ([Call.fire .onDropTargetChange (.target t), Call.dragEnter t]).filter
        Call.isSourceFire) = [] := by
    rw [List.flatMap_eq_nil_iff]
    intro t _
    simp [Call.isSourceFire]
  rw [h₁, h₂]
  cases hasSource <;> simp [Call.isSourceFire]

lemma flatMap_eq_map_of_singleton {α β : Type} {f : α → List β} {g : α → β}
    (l : List α) (h : ∀ a ∈ l, f a = [g a]) : l.flatMap f = l.map g := by
  induction l with
  | nil => rfl
  | cons a l ih =>
    rw [List.flatMap_cons, h a (List.mem_cons_self _ _),
      ih fun a ha => h a (List.mem_cons_of_mem _ ha)]
    rfl

lemma dc_filter_target (hasSource : Bool) (prev next monitors : List Nat) :
    (dispatchChange hasSource prev next monitors).filter Call.isTargetFire
      = (prev ++ next.filter fun t => decide (t ∉ prev)).map
          (fun t => Call.fire .onDropTargetChange (.target t)) := by
  unfold dispatchChange
  rw [List.filter_append, List.filter_append, List.filter_append,
    filter_flatMap_comm, filter_flatMap_comm, filter_map_of_false (fun m => rfl)]
  rw [flatMap_eq_map_of_singleton (g := fun t => Call.fire .onDropTargetChange (.target t))
    prev (by intro t _; by_cases h : t ∈ next <;> simp [h, Call.isTargetFire])]
  rw [flatMap_eq_map_of_singleton (g := fun t => Call.fire .onDropTargetChange (.target t))
    (next.filter fun t => decide (t ∉ prev)) (by intro t _; simp [Call.isTargetFire])]
  rw [List.map_append]
  cases hasSource <;> simp [Call.isTargetFire]

lemma dc_filter_monitor (hasSource : Bool) (prev next monitors : List Nat) :
    (dispatchChange hasSource prev next monitors).filter Call.isMonitorFire
      = monitors.map (fun m => Call.fire .onDropTargetChange (.monitor m)) := by
  unfold dispatchChange
  rw [List.filter_append, List.filter_append, List.filter_append,
    filter_flatMap_comm, filter_flatMap_comm, filter_map_of_true (fun m => rfl)]
  have h₁ : (prev.flatMap fun t =>
      (Call.fire .onDropTargetChange (.target t)
        :: if t ∈ next then [] else [Call.dragLeave t]).filter Call.isMonitorFire) = [] := by
    rw [List.flatMap_eq_nil_iff]
    intro t _
    by_cases h : t ∈ next <;> simp [h, Call.isMonitorFire]
  have h₂ : ((next.filter fun t => decide (t ∉ prev)).flatMap fun t =>
      ([Call.fire .onDropTargetChange (.target t), Call.dragEnter t]).filter
        Call.isMonitorFire) = [] := by
    rw [List.flatMap_eq_nil_iff]
    intro t _
    simp [Call.isMonitorFire]
  rw [h₁, h₂]
  cases hasSource <;> simp [Call.isMonitorFire]

lemma dc_filter_derived (hasSource : Bool) (prev next monitors : List Nat) :
    (dispatchChange hasSource prev next monitors).filter Call.isDerived
      = (prev.filter fun t => decide (t ∉ next)).map Call.dragLeave
        ++ (next.filter fun t => decide (t ∉ prev)).map Call.dragEnter := by
  unfold dispatchChange
  rw [List.filter_append, List.filter_append, List.filter_append,
    filter_flatMap_comm, filter_flatMap_comm, filter_map_of_false (fun m => rfl)]
  have h₁ : (prev.flatMap fun t =>
      (Call.fire .onDropTargetChange (.target t)
        :: if t ∈ next then [] else [Call.dragLeave t]).filter Call.isDerived)
      = prev.flatMap fun t => if t ∈ next then [] else [Call.dragLeave t] := by
    apply List.flatMap_congr  -- may not exist; fallback below
    intro t _
    by_cases h : t ∈ next <;> simp [h, Call.isDerived]
  rw [h₁, flatMap_ite_nil (fun t => t ∈ next) Call.dragLeave prev]
  rw [flatMap_eq_map_of_singleton (g := Call.dragEnter)
    (next.filter fun t => decide (t ∉ prev)) (by intro t _; simp [Call.isDerived])]
  cases hasSource <;> simp [Call.isDerived]

lemma dc_filter_dropFire (hasSource : Bool) (prev next monitors : List Nat) :
    (dispatchChange hasSource prev next monitors).filter Call.isDropFire = [] := by
  unfold dispatchChange
  rw [List.filter_append, List.filter_append, List.filter_append,
    filter_flatMap_comm, filter_flatMap_comm, filter_map_of_false (fun m => rfl)]
  have h₁ : (prev.flatMap fun t =>
      (Call.fire .onDropTargetChange (.target t)
        :: if t ∈ next then [] else [Call.dragLeave t]).filter Call.isDropFire) = [] := by
    rw [List.flatMap_eq_nil_iff]
    intro t _
    by_cases h : t ∈ next <;> simp [h, Call.isDropFire]
  have h₂ : ((next.filter fun t => decide (t ∉ prev)).flatMap fun t =>
      ([Call.fire .onDropTargetChange (.target t), Call.dragEnter t]).filter
        Call.isDropFire) = [] := by
    rw [List.flatMap_eq_nil_iff]
    intro t _
    simp [Call.isDropFire]
  rw [h₁, h₂]
  cases hasSource <;> simp [Call.isDropFire]

lemma pairwise_rank_four {A B C D : List Call}
    (hA : ∀ c ∈ A, Call.rank c = 0) (hB : ∀ c ∈ B, Call.rank c = 1)
    (hC : ∀ c ∈ C, Call.rank c = 1) (hD : ∀ c ∈ D, Call.rank c = 2) :
    (A ++ B ++ C ++ D).Pairwise (fun a b => a.rank ≤ b.rank) := by
  have hBC : ∀ c ∈ B ++ C, Call.rank c = 1 := by
    intro c hc
    rcases List.mem_append.mp hc with h | h
    · exact hB c h
    · exact hC c h
  have := pairwise_rank_three (B := B ++ C) hA hBC hD
  rwa [List.append_assoc A B C] at *
  -- shape: ((A ++ B) ++ C) ++ D vs (A ++ (B ++ C)) ++ D

lemma dc_ranks (hasSource : Bool) (prev next monitors : List Nat) :
    (dispatchChange hasSource prev next monitors).Pairwise
      (fun a b => a.rank ≤ b.rank) := by
  unfold dispatchChange
  refine pairwise_rank_four ?_ ?_ ?_ ?_
  · intro c hc
    cases hasSource <;> simp at hc
    subst hc; rfl
  · intro c hc
    rw [List.mem_flatMap] at hc
    obtain ⟨t, _, hm⟩ := hc
    rcases List.mem_cons.mp hm with rfl | hm
    · rfl
    · by_cases h : t ∈ next <;> simp [h] at hm
      subst hm; rfl
  · intro c hc
    rw [List.mem_flatMap] at hc
    obtain ⟨t, _, hm⟩ := hc
    rcases List.mem_cons.mp hm with rfl | hm
    · rfl
    · simp at hm; subst hm; rfl
  · intro c hc
    rw [List.mem_map] at hc
    obtain ⟨m, _, rfl⟩ := hc; rfl

lemma dc_mem_leave (hasSource : Bool) (prev next monitors : List Nat) (x : Nat) :
    Call.dragLeave x ∈ dispatchChange hasSource prev next monitors ↔
      x ∈ prev ∧ x ∉ next := by
  have hmem : Call.dragLeave x ∈ dispatchChange hasSource prev next monitors ↔
      Call.dragLeave x ∈ (dispatchChange hasSource prev next monitors).filter
        Call.isDerived := by
    rw [List.mem_filter]
    exact ⟨fun h => ⟨h, rfl⟩, fun h => h.1⟩
  rw [hmem, dc_filter_derived]
  simp [List.mem_append, List.mem_map, List.mem_filter]

lemma dc_mem_enter (hasSource : Bool) (prev next monitors : List Nat) (x : Nat) :
    Call.dragEnter x ∈ dispatchChange hasSource prev next monitors ↔
      x ∈ next ∧ x ∉ prev := by
  have hmem : Call.dragEnter x ∈ dispatchChange hasSource prev next monitors ↔
      Call.dragEnter x ∈ (dispatchChange hasSource prev next monitors).filter
        Call.isDerived := by
    rw [List.mem_filter]
    exact ⟨fun h => ⟨h, rfl⟩, fun h => h.1⟩
  rw [hmem, dc_filter_derived]
  simp [List.mem_append, List.mem_map, List.mem_filter]

lemma dc_mem_target (hasSource : Bool) (prev next monitors : List Nat) (x : Nat) :
    Call.fire .onDropTargetChange (.target x) ∈
        dispatchChange hasSource prev next monitors ↔
      x ∈ prev ∨ x ∈ next := by
  have hmem : Call.fire .onDropTargetChange (.target x) ∈
      dispatchChange hasSource prev next monitors ↔
      Call.fire .onDropTargetChange (.target x) ∈
        (dispatchChange hasSource prev next monitors).filter Call.isTargetFire := by
    rw [List.mem_filter]
    exact ⟨fun h => ⟨h, rfl⟩, fun h => h.1⟩
  rw [hmem, dc_filter_target]
  simp [List.mem_append, List.mem_map, List.mem_filter]
  constructor
  · rintro (h | h)
    · exact Or.inl h
    · exact Or.inr h.1
  · rintro (h | h)
    · exact Or.inl h
    · by_cases hp : x ∈ prev
      · exact Or.inl hp
      · exact Or.inr ⟨h, hp⟩

/-- C1: for every primary drag-lifecycle event (preview-generation, start,
move, hierarchy-change, drop), the dispatch pass invokes the drag source's
listener first (when one is registered), then the relevant drop targets'
listeners in the documented traversal order (bubble order; for a hierarchy
change the previous hierarchy followed by the newly entered targets), then
every registered monitor's listener in monitor-registration order. -/
theorem dispatch_invocation_order (hasSource : Bool) (monitors : List Nat)
    (e : DragEvent) :
    ((dispatch hasSource monitors e).filter Call.isSourceFire
        = if hasSource then [Call.fire e.kind .source] else [])
    ∧ ((dispatch hasSource monitors e).filter Call.isTargetFire
        = e.relevantTargets.map (fun t => Call.fire e.kind (.target t)))
    ∧ ((dispatch hasSource monitors e).filter Call.isMonitorFire
        = monitors.map (fun m => Call.fire e.kind (.monitor m)))
    ∧ (dispatch hasSource monitors e).Pairwise (fun a b => a.rank ≤ b.rank) := by
  cases e with
  | change prev next =>
    exact ⟨dc_filter_source hasSource prev next monitors,
      dc_filter_target hasSource prev next monitors,
      dc_filter_monitor hasSource prev next monitors,
      dc_ranks hasSource prev next monitors⟩
  | generatePreview ts =>
    exact ⟨do_filter_source _ _ _ _, do_filter_target _ _ _ _,
      do_filter_monitor _ _ _ _, do_ranks _ _ _ _⟩
  | dragStart ts =>
    exact ⟨do_filter_source _ _ _ _, do_filter_target _ _ _ _,
      do_filter_monitor _ _ _ _, do_ranks _ _ _ _⟩
  | drag ts =>
    exact ⟨do_filter_source _ _ _ _, do_filter_target _ _ _ _,
      do_filter_monitor _ _ _ _, do_ranks _ _ _ _⟩
  | drop ts =>
    exact ⟨do_filter_source _ _ _ _, do_filter_target _ _ _ _,
      do_filter_monitor _ _ _ _, do_ranks _ _ _ _⟩

/-- C2: a hierarchy-change dispatch is two-phase after the drag source.
A target of the previous hierarchy absent from the new one receives the change
event together with a derived leave (and only such targets receive leaves); a
target of the new hierarchy absent from the previous one receives the change
event together with a derived enter (and only such targets receive enters); a
target present in both receives the change event and no derived notification;
all phase-A derived leaves precede all phase-B derived enters; monitors
receive the change event exactly once, after both phases.  For the transition
[B, A] → [D, C] (with B, A, D, C as 0, 1, 2, 3) the full sequence is:
draggable, B with leave, A with leave, D with enter, C with enter, monitor. -/
theorem dropTargetChange_two_phase (hasSource : Bool) (prev next monitors : List Nat) :
    (∀ x, Call.dragLeave x ∈ dispatchChange hasSource prev next monitors ↔
        x ∈ prev ∧ x ∉ next)
    ∧ (∀ x, Call.dragEnter x ∈ dispatchChange hasSource prev next monitors ↔
        x ∈ next ∧ x ∉ prev)
    ∧ (∀ x, Call.fire .onDropTargetChange (.target x) ∈
          dispatchChange hasSource prev next monitors ↔ x ∈ prev ∨ x ∈ next)
    ∧ ((dispatchChange hasSource prev next monitors).filter Call.isDerived
        = (prev.filter fun t => decide (t ∉ next)).map Call.dragLeave
          ++ (next.filter fun t => decide (t ∉ prev)).map Call.dragEnter)
    ∧ ((dispatchChange hasSource prev next monitors).filter Call.isMonitorFire
        = monitors.map fun m => Call.fire .onDropTargetChange (.monitor m))
    ∧ (dispatchChange hasSource prev next monitors).Pairwise
        (fun a b => a.rank ≤ b.rank)
    ∧ dispatchChange true [0, 1] [2, 3] [10]
        = [Call.fire .onDropTargetChange .source,
           Call.fire .onDropTargetChange (.target 0), Call.dragLeave 0,
           Call.fire .onDropTargetChange (.target 1), Call.dragLeave 1,
           Call.fire .onDropTargetChange (.target 2), Call.dragEnter 2,
           Call.fire .onDropTargetChange (.target 3), Call.dragEnter 3,
           Call.fire .onDropTargetChange (.monitor 10)] :=
  ⟨dc_mem_leave hasSource prev next monitors,
   dc_mem_enter hasSource prev next monitors,
   dc_mem_target hasSource prev next monitors,
   dc_filter_derived hasSource prev next monitors,
   dc_filter_monitor hasSource prev next monitors,
   dc_ranks hasSource prev next monitors,
   by decide⟩

/-- Witness for C2: in the [B, A] → [C, A] transition (B, A, C as 0, 1, 2),
the staying target A = 1 receives no derived leave. -/
theorem dropTargetChange_two_phase_witness :
    Call.dragLeave 1 ∉ dispatchChange true [0, 1] [2, 1] [10] := by
  intro hmem
  have h := ((dropTargetChange_two_phase true [0, 1] [2, 1] [10]).1 1).mp hmem
  exact h.2 (by decide)

/-! ### End-of-drag lemmas -/

lemma do_filter_dropFire_self (hasSource : Bool) (targets monitors : List Nat) :
    (dispatchOrdered .onDrop hasSource targets monitors).filter Call.isDropFire
      = dispatchOrdered .onDrop hasSource targets monitors := by
  unfold dispatchOrdered
  rw [List.filter_append, List.filter_append,
    filter_map_of_true (fun t => rfl), filter_map_of_true (fun m => rfl)]
  cases hasSource <;> simp [Call.isDropFire]

lemma finishDrag_filter_dropFire (hasSource : Bool) (current monitors : List Nat)
    (r : EndReason) :
    (finishDrag hasSource current monitors r).filter Call.isDropFire
      = dispatchOrdered .onDrop hasSource (finalDropTargets current r) monitors := by
  unfold finishDrag
  rw [List.filter_append, do_filter_dropFire_self]
  by_cases h : current = finalDropTargets current r
  · rw [if_pos h]; rfl
  · rw [if_neg h, dc_filter_dropFire]; rfl

lemma mem_finishDrag_dropTarget (hasSource : Bool) (current monitors : List Nat)
    (r : EndReason) (x : Nat) :
    Call.fire .onDrop (.target x) ∈ finishDrag hasSource current monitors r ↔
      x ∈ finalDropTargets current r := by
  unfold finishDrag
  rw [List.mem_append]
  constructor
  · rintro (h | h)
    · exfalso
      by_cases hc : current = finalDropTargets current r
      · rw [if_pos hc] at h
        exact (List.not_mem_nil _) h
      · rw [if_neg hc] at h
        have := List.filter_eq_nil_iff.mp
          (dc_filter_dropFire hasSource current (finalDropTargets current r) monitors)
          _ h
        exact this rfl
    · exact (do_mem_target .onDrop hasSource _ monitors x).mp h
  · intro h
    exact Or.inr ((do_mem_target .onDrop hasSource _ monitors x).mpr h)

/-- C3: the terminal drop event dispatches to the drag source, then to every
drop target of the final current hierarchy in bubble order, then to monitors;
a target receives the drop exactly when the payload's current location lists
it (the payload accurately contains the final drop targets); and the payload
carries no information about how the drag concluded: any two conclusion
reasons yielding the same final hierarchy produce identical dispatches and
identical payloads. -/
theorem drop_event_semantics (hasSource : Bool) (initial : DragLocation)
    (finalInput : Input) (current prevTargets monitors : List Nat)
    (sourceElement : Nat) (r : EndReason) :
    ((finishDrag hasSource current monitors r).filter Call.isDropFire
        = (if hasSource then [Call.fire .onDrop .source] else [])
          ++ (finalDropTargets current r).map (fun t => Call.fire .onDrop (.target t))
          ++ monitors.map (fun m => Call.fire .onDrop (.monitor m)))
    ∧ (∀ x, Call.fire .onDrop (.target x) ∈
          (finishDragRun hasSource initial finalInput current prevTargets monitors
            sourceElement r).1 ↔
        x ∈ (finishDragRun hasSource initial finalInput current prevTargets monitors
            sourceElement r).2.location.current.dropTargets)
    ∧ (∀ r' : EndReason, finalDropTargets current r = finalDropTargets current r' →
        finishDragRun hasSource initial finalInput current prevTargets monitors
            sourceElement r
          = finishDragRun hasSource initial finalInput current prevTargets monitors
            sourceElement r') := by
  refine ⟨?_, ?_, ?_⟩
  · rw [finishDrag_filter_dropFire]
    rfl
  · intro x
    exact mem_finishDrag_dropTarget hasSource current monitors r x
  · intro r' h
    unfold finishDragRun finishDrag
    rw [h]

/-- Witness for C3: concluding over the hierarchy [2] by cancellation and by
leaving the window produce identical dispatches and payloads. -/
theorem drop_event_semantics_witness :
    finishDragRun true ⟨⟨false, 0, 0, false, false, false, 0, 0, 0, 0⟩, [2]⟩
        ⟨false, 0, 0, false, false, false, 1, 1, 1, 1⟩ [2] [2] [10] 7 .cancelled
      = finishDragRun true ⟨⟨false, 0, 0, false, false, false, 0, 0, 0, 0⟩, [2]⟩
        ⟨false, 0, 0, false, false, false, 1, 1, 1, 1⟩ [2] [2] [10] 7 .leftWindow :=
  (drop_event_semantics true ⟨⟨false, 0, 0, false, false, false, 0, 0, 0, 0⟩, [2]⟩
      ⟨false, 0, 0, false, false, false, 1, 1, 1, 1⟩ [2] [2] [10] 7
      .cancelled).2.2 .leftWindow (by decide)

/-- C4: cancelling while over one or more drop targets first dispatches a
hierarchy-change pass clearing the current hierarchy (every current target
receiving a derived leave), then the terminal drop pass against the empty
hierarchy, so no drop target ever receives the drop event: the drop fires
reach exactly the drag source and the monitors.  Concretely, cancelling over
[B, A] (as [0, 1]) produces the change pass clearing both followed by a drop
pass reaching only the source and the monitor. -/
theorem cancel_clears_then_drops (hasSource : Bool) (current monitors : List Nat)
    (h : current ≠ []) :
    (finishDrag hasSource current monitors .cancelled
        = dispatchChange hasSource current [] monitors
          ++ dispatchOrdered .onDrop hasSource [] monitors)
    ∧ (∀ x ∈ current,
        Call.dragLeave x ∈ finishDrag hasSource current monitors .cancelled)
    ∧ (∀ x, Call.fire .onDrop (.target x) ∉
        finishDrag hasSource current monitors .cancelled)
    ∧ ((finishDrag hasSource current monitors .cancelled).filter Call.isDropFire
        = (if hasSource then [Call.fire .onDrop .source] else [])
          ++ monitors.map (fun m => Call.fire .onDrop (.monitor m)))
    ∧ finishDrag true [0, 1] [10] .cancelled
        = [Call.fire .onDropTargetChange .source,
           Call.fire .onDropTargetChange (.target 0), Call.dragLeave 0,
           Call.fire .onDropTargetChange (.target 1), Call.dragLeave 1,
           Call.fire .onDropTargetChange (.monitor 10),
           Call.fire .onDrop .source,
           Call.fire .onDrop (.monitor 10)] := by
  refine ⟨?_, ?_, ?_, ?_, by decide⟩
  · unfold finishDrag
    rw [if_neg (by simpa [finalDropTargets] using h)]
    rfl
  · intro x hx
    unfold finishDrag
    rw [if_neg (by simpa [finalDropTargets] using h)]
    rw [List.mem_append]
    exact Or.inl
      ((dc_mem_leave hasSource current [] monitors x).mpr
        ⟨hx, List.not_mem_nil x⟩)
  · intro x hx
    have := (mem_finishDrag_dropTarget hasSource current monitors .cancelled x).mp hx
    exact (List.not_mem_nil x) this
  · rw [finishDrag_filter_dropFire]
    unfold dispatchOrdered
    simp [finalDropTargets]

/-- Witness for C4: the concrete cancellation sequence over [0, 1]. -/
theorem cancel_clears_then_drops_witness :
    finishDrag true [0, 1] [10] .cancelled
      = [Call.fire .onDropTargetChange .source,
         Call.fire .onDropTargetChange (.target 0), Call.dragLeave 0,
         Call.fire .onDropTargetChange (.target 1), Call.dragLeave 1,
         Call.fire .onDropTargetChange (.monitor 10),
         Call.fire .onDrop .source,
         Call.fire .onDrop (.monitor 10)] :=
  (cancel_clears_then_drops true [0, 1] [10] (by decide)).2.2.2.2

/-! ### History lemmas -/

lemma historiesFrom_head (init cur : DragLocation) (us : List DragLocation)
    (h : DragLocationHistory) (hh : (historiesFrom init cur us)[0]? = some h) :
    h.previousDropTargets = cur.dropTargets := by
  cases us with
  | nil => simp [historiesFrom] at hh
  | cons u rest =>
    simp [historiesFrom] at hh
    rw [← hh]

lemma historiesFrom_chain (init : DragLocation) (us : List DragLocation) :
    ∀ (cur : DragLocation) (n : Nat) (h h' : DragLocationHistory),
      (historiesFrom init cur us)[n]? = some h →
      (historiesFrom init cur us)[n + 1]? = some h' →
      h'.previousDropTargets = h.current.dropTargets := by
  induction us with
  | nil =>
    intro cur n h h' h1 _
    simp [historiesFrom] at h1
  | cons u rest ih =>
    intro cur n h h' h1 h2
    cases n with
    | zero =>
      simp [historiesFrom] at h1
      have h2' : (historiesFrom init u rest)[0]? = some h' := by
        simpa [historiesFrom] using h2
      rw [historiesFrom_head init u rest h' h2', ← h1]
    | succ n =>
      have h1' : (historiesFrom init u rest)[n]? = some h := by
        simpa [historiesFrom] using h1
      have h2' : (historiesFrom init u rest)[n + 1]? = some h' := by
        simpa [historiesFrom] using h2
      exact ih u n h h' h1' h2'

/-- C5: in the payload of the start-of-drag event (index 1 of the dispatched
histories, after `onGenerateDragPreview` at index 0), the previous drop-target
hierarchy equals the current drop-target hierarchy exactly; and for every
dispatched event after the first, `previous` equals what `current` was in the
event dispatched immediately before it. -/
theorem history_previous_tracks_current (initial : DragLocation)
    (updates : List DragLocation) :
    ((dispatchedHistories initial updates)[1]?
        = some ⟨initial, initial, initial.dropTargets⟩)
    ∧ (∀ h, (dispatchedHistories initial updates)[1]? = some h →
        h.previousDropTargets = h.current.dropTargets)
    ∧ (∀ (n : Nat) (h h' : DragLocationHistory),
        (dispatchedHistories initial updates)[n]? = some h →
        (dispatchedHistories initial updates)[n + 1]? = some h' →
        h'.previousDropTargets = h.current.dropTargets) := by
  refine ⟨by simp [dispatchedHistories], ?_, ?_⟩
  · intro h hh
    simp [dispatchedHistories] at hh
    rw [← hh]
  · intro n h h' h1 h2
    cases n with
    | zero =>
      simp [dispatchedHistories] at h1 h2
      rw [← h1, ← h2]
    | succ n =>
      cases n with
      | zero =>
        simp [dispatchedHistories] at h1 h2
        rw [← h1]
        exact historiesFrom_head initial initial updates h' h2
      | succ n =>
        have h1' : (historiesFrom initial initial updates)[n]? = some h := by
          simpa [dispatchedHistories] using h1
        have h2' : (historiesFrom initial initial updates)[n + 1]? = some h' := by
          simpa [dispatchedHistories] using h2
        exact historiesFrom_chain initial updates initial n h h' h1' h2'

/-- Witness for C5: for a drag starting over [4] and moving to [5], the event
after the start event has `previous` equal to the start event's `current`. -/
theorem history_previous_tracks_current_witness :
    (⟨⟨⟨false, 0, 0, false, false, false, 0, 0, 0, 0⟩, [4]⟩,
        ⟨⟨false, 0, 0, false, false, false, 0, 0, 0, 0⟩, [5]⟩, [4]⟩ :
        DragLocationHistory).previousDropTargets
      = (⟨⟨⟨false, 0, 0, false, false, false, 0, 0, 0, 0⟩, [4]⟩,
          ⟨⟨false, 0, 0, false, false, false, 0, 0, 0, 0⟩, [4]⟩, [4]⟩ :
          DragLocationHistory).current.dropTargets :=
  (history_previous_tracks_current
      ⟨⟨false, 0, 0, false, false, false, 0, 0, 0, 0⟩, [4]⟩
      [⟨⟨false, 0, 0, false, false, false, 0, 0, 0, 0⟩, [5]⟩]).2.2 1 _ _
    (by decide) (by decide)

/-! ### Throttling lemmas -/

lemma throttled_length_le (frames : List (List DragLocation)) :
    (throttledDispatches frames).length ≤ frames.length := by
  induction frames with
  | nil => simp [throttledDispatches]
  | cons f rest ih =>
    rw [throttledDispatches, List.flatMap_cons, List.length_append]
    rw [throttledDispatches] at ih
    have hf : f.getLast?.toList.length ≤ 1 := by
      cases f.getLast? <;> simp
    simp only [List.length_cons]
    omega

/-- C6: the movement event is rate-limited to the display refresh cycle:
however many raw input events arrive, at most one `onDrag` dispatch happens
per animation frame (so the dispatch count is bounded by the frame count,
independent of the raw event count), and the state delivered for a frame is
exactly the most recent pending state of that frame, intermediate states
being dropped. -/
theorem onDrag_throttled (frames : List (List DragLocation)) :
    ((throttledDispatches frames).length ≤ frames.length)
    ∧ (∀ d ∈ throttledDispatches frames, ∃ f ∈ frames, f.getLast? = some d)
    ∧ (∀ f ∈ frames, ∀ d, f.getLast? = some d →
        d ∈ throttledDispatches frames) := by
  refine ⟨throttled_length_le frames, ?_, ?_⟩
  · intro d hd
    simp [throttledDispatches, List.mem_flatMap] at hd
    obtain ⟨f, hf, hlast⟩ := hd
    exact ⟨f, hf, hlast⟩
  · intro f hf d hlast
    simp [throttledDispatches, List.mem_flatMap]
    exact ⟨f, hf, hlast⟩

/-- Witness for C6: a frame receiving two raw states delivers only the most
recent one. -/
theorem onDrag_throttled_witness :
    (⟨⟨false, 0, 0, false, false, false, 2, 2, 2, 2⟩, [1]⟩ : DragLocation) ∈
      throttledDispatches
        [[⟨⟨false, 0, 0, false, false, false, 1, 1, 1, 1⟩, []⟩,
          ⟨⟨false, 0, 0, false, false, false, 2, 2, 2, 2⟩, [1]⟩]] :=
  (onDrag_throttled
      [[⟨⟨false, 0, 0, false, false, false, 1, 1, 1, 1⟩, []⟩,
        ⟨⟨false, 0, 0, false, false, false, 2, 2, 2, 2⟩, [1]⟩]]).2.2
    [⟨⟨false, 0, 0, false, false, false, 1, 1, 1, 1⟩, []⟩,
     ⟨⟨false, 0, 0, false, false, false, 2, 2, 2, 2⟩, [1]⟩] (by decide)
    ⟨⟨false, 0, 0, false, false, false, 2, 2, 2, 2⟩, [1]⟩ (by decide)

/-! ### Registry lemmas -/

lemma mem_unregister (reg : List Nat) (i j : Nat) :
    j ∈ unregister i reg ↔ j ∈ reg ∧ j ≠ i := by
  simp [unregister, List.mem_filter]

lemma combinedUnbind_eq_filter (ids reg : List Nat) :
    combinedUnbind ids reg = reg.filter (fun j => decide (j ∉ ids)) := by
  induction ids generalizing reg with
  | nil =>
    simp [combinedUnbind]
  | cons i ids ih =>
    rw [show combinedUnbind (i :: ids) reg = combinedUnbind ids (unregister i reg)
      from rfl, ih, unregister, List.filter_filter]
    apply List.filter_congr
    intro j _
    by_cases h1 : j = i <;> by_cases h2 : j ∈ ids <;> simp [h1, h2]

lemma combinedUnbind_sublist (ids reg : List Nat) :
    (combinedUnbind ids reg).Sublist reg := by
  rw [combinedUnbind_eq_filter]
  exact List.filter_sublist reg

lemma foldl_unbind_sublist (cs : List Call) (actions : Call → List Nat) :
    ∀ reg : List Nat,
      (cs.foldl (fun r c => combinedUnbind (actions c) r) reg).Sublist reg := by
  induction cs with
  | nil => intro reg; exact List.Sublist.refl reg
  | cons c cs ih =>
    intro reg
    exact (ih (combinedUnbind (actions c) reg)).trans
      (combinedUnbind_sublist (actions c) reg)

/-- C7: invoking a deregistration handle removes exactly that listener from
the registry (and from all later dispatch passes, which are computed from the
registry); deregistration keeps the remaining entries in their original
relative order (the result is a sublist); several handles combined into one
tear all their registrations down irrespective of order; and registry
mutations performed by listeners during a pass never alter the set or order of
invocations of the in-progress pass — the pass is a function of the snapshot
alone — taking effect only in the registry used from the next event onward,
which is again an order-preserving sublist of the snapshot. -/
theorem registration_teardown_and_snapshot :
    (∀ (reg : List Nat) (i j : Nat), j ∈ unregister i reg ↔ j ∈ reg ∧ j ≠ i)
    ∧ (∀ (reg : List Nat) (i : Nat), (unregister i reg).Sublist reg)
    ∧ (∀ (reg ids₁ ids₂ : List Nat), ids₁.Perm ids₂ →
        combinedUnbind ids₁ reg = combinedUnbind ids₂ reg)
    ∧ (∀ (hasSource : Bool) (monitors : List Nat) (e : DragEvent)
        (actions actions' : Call → List Nat),
        (runEvent hasSource monitors e actions).1
          = (runEvent hasSource monitors e actions').1)
    ∧ (∀ (hasSource : Bool) (monitors : List Nat) (e : DragEvent)
        (actions : Call → List Nat),
        ((runEvent hasSource monitors e actions).2).Sublist monitors) := by
  refine ⟨mem_unregister, ?_, ?_, ?_, ?_⟩
  · intro reg i
    exact List.filter_sublist reg
  · intro reg ids₁ ids₂ hperm
    rw [combinedUnbind_eq_filter, combinedUnbind_eq_filter]
    apply List.filter_congr
    intro j _
    by_cases h : j ∈ ids₁
    · simp [h, hperm.mem_iff.mp h]
    · simp only [h, decide_not]
      have : j ∉ ids₂ := fun hx => h (hperm.mem_iff.mpr hx)
      simp [h, this]
  · intro hasSource monitors e actions actions'
    rfl
  · intro hasSource monitors e actions
    exact foldl_unbind_sublist (dispatch hasSource monitors e) actions monitors

/-- Witness for C7: tearing down registrations 1 and 2 of the registry
[1, 2, 3] through a combined handle gives the same result in either order. -/
theorem registration_teardown_and_snapshot_witness :
    combinedUnbind [1, 2] [1, 2, 3] = combinedUnbind [2, 1] [1, 2, 3] :=
  registration_teardown_and_snapshot.2.2.1 [1, 2, 3] [1, 2] [2, 1] (by decide)

/-! ### `canDrop` lemmas -/

lemma not_mem_activeDropTargets (src d : Nat) (chain : List TargetSpec)
    (h : ∀ t ∈ chain, t.element = d → t.canDrop src = false) :
    d ∉ activeDropTargets src chain := by
  simp only [activeDropTargets, List.mem_map, List.mem_filter]
  rintro ⟨t, ⟨ht, hcan⟩, rfl⟩
  rw [h t ht rfl] at hcan
  exact Bool.false_ne_true hcan

/-- C8: a drop target whose `canDrop` rejects the current drag source is
disabled for that drag: its element never appears in the active drop-target
hierarchy, so it receives no derived enter or leave notification in any
hierarchy-change pass between active hierarchies, and it never receives the
terminal drop event. -/
theorem canDrop_false_disables_target (src d : Nat) (c₁ c₂ : List TargetSpec)
    (hasSource : Bool) (monitors : List Nat) (r : EndReason)
    (h₁ : ∀ t ∈ c₁, t.element = d → t.canDrop src = false)
    (h₂ : ∀ t ∈ c₂, t.element = d → t.canDrop src = false) :
    d ∉ activeDropTargets src c₁
    ∧ Call.dragEnter d ∉ dispatchChange hasSource (activeDropTargets src c₁)
        (activeDropTargets src c₂) monitors
    ∧ Call.dragLeave d ∉ dispatchChange hasSource (activeDropTargets src c₁)
        (activeDropTargets src c₂) monitors
    ∧ Call.fire .onDrop (.target d) ∉
        finishDrag hasSource (activeDropTargets src c₁) monitors r := by
  have hm₁ := not_mem_activeDropTargets src d c₁ h₁
  have hm₂ := not_mem_activeDropTargets src d c₂ h₂
  refine ⟨hm₁, ?_, ?_, ?_⟩
  · intro hmem
    exact hm₂ ((dc_mem_enter hasSource _ _ monitors d).mp hmem).1
  · intro hmem
    exact hm₁ ((dc_mem_leave hasSource _ _ monitors d).mp hmem).1
  · intro hmem
    have := (mem_finishDrag_dropTarget hasSource _ monitors r d).mp hmem
    cases r with
    | explicitDrop => exact hm₁ this
    | cancelled => exact (List.not_mem_nil d) this
    | leftWindow => exact (List.not_mem_nil d) this

/-- Witness for C8: with `canDrop` rejecting the source on element 5, element
5 is absent from the active hierarchy over a chain containing it. -/
theorem canDrop_false_disables_target_witness :
    5 ∉ activeDropTargets 1
      [⟨5, fun _ => false⟩, ⟨7, fun _ => true⟩] :=
  (canDrop_false_disables_target 1 5
      [⟨5, fun _ => false⟩, ⟨7, fun _ => true⟩] [⟨7, fun _ => true⟩]
      true [10] .explicitDrop
      (by
        intro t ht heq
        rcases List.mem_cons.mp ht with rfl | ht
        · rfl
        · rcases List.mem_cons.mp ht with rfl | ht
          · exact absurd heq (by decide)
          · exact absurd ht (List.not_mem_nil t))
      (by
        intro t ht heq
        rcases List.mem_cons.mp ht with rfl | ht
        · exact absurd heq (by decide)
        · exact absurd ht (List.not_mem_nil t))).1

/-- C9: while a keyboard-controlled drag is active, every keydown of a
scroll-modifying key (PageUp, PageDown, Home, End) has its default action
prevented and leaves the dragged item in the dragging state: such keys never
scroll the page and never terminate the drag. -/
theorem scroll_keys_prevented_while_dragging (k : Key)
    (hk : k ∈ scrollModifierKeys) :
    (keydownWhileDragging k).defaultPrevented = true
    ∧ (keydownWhileDragging k).dragging = true := by
  cases k with
  | pageUp => exact ⟨rfl, rfl⟩
  | pageDown => exact ⟨rfl, rfl⟩
  | homeKey => exact ⟨rfl, rfl⟩
  | endKey => exact ⟨rfl, rfl⟩
  | escape => exact absurd hk (by decide)
  | otherKey => exact absurd hk (by decide)

/-- Witness for C9: PageUp during a drag is prevented and keeps dragging. -/
theorem scroll_keys_prevented_while_dragging_witness :
    (keydownWhileDragging .pageUp).defaultPrevented = true
    ∧ (keydownWhileDragging .pageUp).dragging = true :=
  scroll_keys_prevented_while_dragging .pageUp (by decide)

/-- C10: the tutorial chessboard monitor's `onDrop` handler leaves the pieces
state unchanged whenever the drop lands outside all drop targets, or the
destination or source data fail the coordinate and piece-type guards, or no
piece occupies the source square, or `canMove` rejects the move; and it
relocates the found piece to the innermost drop target's location exactly when
every one of these checks passes. -/
theorem chessboard_monitor_onDrop_guards
    (canMove : Coord → Coord → PieceType → List PieceRecord → Bool)
    (pieces : List PieceRecord) (source : SourceData)
    (tgts : List TargetData) :
    (tgts.head? = none → monitorOnDrop canMove pieces source tgts = pieces)
    ∧ (∀ destination, tgts.head? = some destination →
        (isCoord destination.location = false ∨ isCoord source.location = false
          ∨ isPieceType source.pieceType = false) →
        monitorOnDrop canMove pieces source tgts = pieces)
    ∧ (∀ destination d s pt, tgts.head? = some destination →
        destination.location = .coord d → source.location = .coord s →
        source.pieceType = .piece pt →
        ((pieces.find? (fun p => isEqualCoord p.location s) = none →
            monitorOnDrop canMove pieces source tgts = pieces)
        ∧ (canMove s d pt pieces = false →
            monitorOnDrop canMove pieces source tgts = pieces)
        ∧ (∀ pc, pieces.find? (fun p => isEqualCoord p.location s) = some pc →
            canMove s d pt pieces = true →
            monitorOnDrop canMove pieces source tgts
              = ⟨pc.type, d⟩ ::
                  pieces.filter (fun p => decide (some p ≠ some pc))))) := by
  refine ⟨?_, ?_, ?_⟩
  · intro hhead
    cases tgts with
    | nil => rfl
    | cons a rest => simp at hhead
  · intro destination hhead hbad
    cases tgts with
    | nil => simp at hhead
    | cons a rest =>
      simp at hhead
      subst hhead
      show (match a.location, source.location, source.pieceType with
        | .coord destinationLocation, .coord sourceLocation, .piece pieceType =>
          let piece := pieces.find? (fun p => isEqualCoord p.location sourceLocation)
          let restOfPieces := pieces.filter (fun p => decide (some p ≠ piece))
          match piece with
          | some pc =>
            if canMove sourceLocation destinationLocation pieceType pieces then
              ⟨pc.type, destinationLocation⟩ :: restOfPieces
            else
              pieces
          | none => pieces
        | _, _, _ => pieces) = pieces
      rcases hd : a.location with _ | c | t | _ <;>
        rcases hs : source.location with _ | c₂ | t₂ | _ <;>
          rcases hp : source.pieceType with _ | c₃ | t₃ | _ <;>
            first
              | rfl
              | (rw [hd, hs, hp] at hbad
                 simp [isCoord, isPieceType] at hbad)
  · intro destination d s pt hhead hd hs hp
    cases tgts with
    | nil => simp at hhead
    | cons a rest =>
      simp at hhead
      subst hhead
      have hred : monitorOnDrop canMove pieces source (a :: rest)
          = (let piece := pieces.find? (fun p => isEqualCoord p.location s)
             let restOfPieces := pieces.filter (fun p => decide (some p ≠ piece))
             match piece with
             | some pc =>
               if canMove s d pt pieces then
                 ⟨pc.type, d⟩ :: restOfPieces
               else
                 pieces
             | none => pieces) := by
        show ((match a.location, source.location, source.pieceType with
          | .coord destinationLocation, .coord sourceLocation, .piece pieceType =>
            let piece := pieces.find? (fun p => isEqualCoord p.location sourceLocation)
            let restOfPieces := pieces.filter (fun p => decide (some p ≠ piece))
            match piece with
            | some pc =>
              if canMove sourceLocation destinationLocation pieceType pieces then
                ⟨pc.type, destinationLocation⟩ :: restOfPieces
              else
                pieces
            | none => pieces
          | _, _, _ => pieces : List PieceRecord))
          = (let piece := pieces.find? (fun p => isEqualCoord p.location s)
             let restOfPieces := pieces.filter (fun p => decide (some p ≠ piece))
             match piece with
             | some pc =>
               if canMove s d pt pieces then
                 ⟨pc.type, d⟩ :: restOfPieces
               else
                 pieces
             | none => pieces)
        rw [hd, hs, hp]
      refine ⟨?_, ?_, ?_⟩
      · intro hfind
        rw [hred]
        simp only [hfind]
      · intro hcan
        rw [hred]
        simp only [hcan]
        cases pieces.find? (fun p => isEqualCoord p.location s) <;> simp
      · intro pc hfind hcan
        rw [hred]
        simp only [hfind, hcan, if_true]

/-- Witness for C10: with the tutorial's initial pieces, dropping the king
from (3, 2) onto the square (3, 3) under a permitting `canMove` relocates it
there. -/
theorem chessboard_monitor_onDrop_guards_witness :
    monitorOnDrop (fun _ _ _ _ => true)
        [⟨.king, (3, 2)⟩, ⟨.pawn, (1, 6)⟩]
        ⟨.coord (3, 2), .piece .king⟩ [⟨.coord (3, 3)⟩]
      = ⟨.king, (3, 3)⟩ ::
          ([⟨.king, (3, 2)⟩, ⟨.pawn, (1, 6)⟩] : List PieceRecord).filter
            (fun p => decide (some p ≠ some ⟨.king, (3, 2)⟩)) :=
  ((chessboard_monitor_onDrop_guards (fun _ _ _ _ => true)
        [⟨.king, (3, 2)⟩, ⟨.pawn, (1, 6)⟩]
        ⟨.coord (3, 2), .piece .king⟩ [⟨.coord (3, 3)⟩]).2.2
      ⟨.coord (3, 3)⟩ (3, 3) (3, 2) .king rfl rfl rfl rfl).2.2
    ⟨.king, (3, 2)⟩ (by decide) rfl

end Pdnd
